import Mathlib

set_option maxHeartbeats 1000000

/-!
Shallow embedding of the sstart secret aggregator (github.com/dirathea/sstart),
covering the secret cache (internal/cache/cache.go), the provider key-rename
logic shared by the Doppler and Infisical plugins, the shell escaping of the
env command (internal/cli/env.go), the JSON-RPC message classification
(internal/mcp/protocol.go), and the spec-modelled cache discipline of the
secret collector.

Machine integers do not occur on these paths; Go time instants are modelled as
Int nanoseconds and Go durations as Int nanoseconds, so that time.Time.After /
Before become strict Int comparisons as in the source.
-/

namespace SStart

/-! ### Go map model

Go maps are modelled as association lists with a lookup that returns the
binding of the key (unique in a real Go map). A possibly-nil Go map is an
Option of such a list: reads on a nil map behave as on an empty map, while an
assignment to a nil map is a runtime panic, exactly as in Go. -/

/-- Go map update m[k] = v on an association-list model of a (non-nil) Go map:
if the key is present its binding is replaced, otherwise the binding is
appended. -/
def mapSet {κ α : Type} [DecidableEq κ] (m : List (κ × α)) (k : κ) (v : α) :
    List (κ × α) :=
  if m.any (fun p => decide (p.1 = k)) then
    m.map (fun p => if p.1 = k then (k, v) else p)
  else
    m ++ [(k, v)]

/-- Go map deletion delete(m, k) on the association-list model. -/
def mapDel {κ α : Type} [DecidableEq κ] (m : List (κ × α)) (k : κ) :
    List (κ × α) :=
  m.filter (fun p => decide (p.1 ≠ k))

/-- Go map read m[k] on the association-list model. -/
def mapGet {κ α : Type} [DecidableEq κ] : List (κ × α) → κ → Option α
  | [], _ => none
  | p :: rest, k => if p.1 = k then some p.2 else mapGet rest k

/-- A Go map value that may be nil: none models the nil map. -/
abbrev GoMap (κ α : Type) := Option (List (κ × α))

/-- The Go runtime panics modelled here: assignment to an entry in a nil map. -/
inductive GoPanic : Type where
  | nilMapAssign
deriving DecidableEq

/-- Reading from a Go map that may be nil: a read on a nil map acts as on an
empty map. -/
def goLookup {κ α : Type} [DecidableEq κ] : GoMap κ α → κ → Option α
  | none, _ => none
  | some m, k => mapGet m k

/-- Deleting from a Go map that may be nil: deletion on a nil map is a no-op. -/
def goDelete {κ α : Type} [DecidableEq κ] : GoMap κ α → κ → GoMap κ α
  | none, _ => none
  | some m, k => some (mapDel m k)

/-- Assigning into a Go map that may be nil: assignment to a nil map panics at
runtime ("assignment to entry in nil map"). -/
def goAssign {κ α : Type} [DecidableEq κ] : GoMap κ α → κ → α →
    Except GoPanic (List (κ × α))
  | none, _, _ => .error .nilMapAssign
  | some m, k, v => .ok (mapSet m k v)

namespace Cache

/-! ### internal/cache/cache.go -/

/-- DefaultTTL is the default cache TTL (5 minutes), as an Int count of
nanoseconds mirroring Go time.Duration. -/
def DefaultTTL : Int := 5 * 60 * 1000000000

/-- CachedSecrets (cache.go): cached secrets with metadata. Field order follows
the Go struct: Secrets, ExpiresAt, CachedAt. Secret maps are modelled as
association lists of string pairs. -/
structure CachedSecrets : Type where
  secrets : List (String × String)
  expiresAt : Int
  cachedAt : Int
deriving DecidableEq

/-- CacheStore (cache.go): the entire cache storage. The Providers field is a
Go map (fingerprint to CachedSecrets) that json.Unmarshal leaves nil when the
decoded document has no providers object or a null one; the key type κ stands
for the fingerprint strings. -/
structure CacheStore (κ : Type) : Type where
  providers : GoMap κ CachedSecrets
deriving DecidableEq

/-- Contents of the cache backing file as os.ReadFile and json.Unmarshal see
them in loadStoreFromFile: missing models a read error, malformed models
contents that are not valid JSON, and stored p models a JSON document that
decodes to a CacheStore whose Providers map is p. In particular stored none
models the file contents left-brace right-brace as well as a document whose
providers field is null, both of which decode to a nil Providers map. -/
inductive FileData (κ : Type) : Type where
  | missing
  | malformed
  | stored (providers : GoMap κ CachedSecrets)
deriving DecidableEq

/-- sortedConfigString (cache.go) creates a deterministic representation of the
config: it collects the keys, skipping the reserved internal SSO token keys,
sorts them, and rebuilds the map. The source then json.Marshal-s the rebuilt
map; Go marshals a string-keyed map with its keys in sorted order, so the
marshalled bytes are an injective image of the sorted filtered association
list, which we use directly as the canonical representation. Config values are
modelled as strings. -/
def reservedKey (k : String) : Bool :=
  k == "_sso_access_token" || k == "_sso_id_token"

/-- Insertion step of the key sort performed by sortedConfigString
(sort.Strings in the source). -/
def sortedInsert (p : String × String) :
    List (String × String) → List (String × String)
  | [] => [p]
  | q :: rest => if q.1 < p.1 then q :: sortedInsert p rest else p :: q :: rest

/-- Sorting the config entries by key (sort.Strings in the source, followed by
rebuilding the map, whose marshalling is key-sorted). -/
def sortByKey : List (String × String) → List (String × String)
  | [] => []
  | p :: rest => sortedInsert p (sortByKey rest)

/-- The canonical config representation built by sortedConfigString: reserved
SSO token keys are skipped, the rest is ordered by key. -/
def sortedConfigString (config : List (String × String)) :
    List (String × String) :=
  sortByKey (config.filter (fun p => !reservedKey p.1))

/-- The cache fingerprint value. GenerateCacheKey in the source marshals the
payload (provider_id, kind, sortedConfigString config) to JSON, hashes it with
crypto/sha256 and hex-encodes the digest. JSON marshalling of the payload is
injective in the three components, and the digest is modelled as an ideal
(deterministic, collision-free) image of the hashed bytes, so the fingerprint
is represented by the payload triple itself: two fingerprints are equal exactly
when their payloads are. -/
structure Fingerprint : Type where
  providerId : String
  kind : String
  config : List (String × String)
deriving DecidableEq

/-- GenerateCacheKey (cache.go): the fingerprint of (providerID, kind, config),
with the config canonicalized by sortedConfigString. -/
def GenerateCacheKey (providerID : String) (kind : String)
    (config : List (String × String)) : Fingerprint :=
  ⟨providerID, kind, sortedConfigString config⟩

/-- loadStoreFromFile (cache.go): a read error or a JSON decode error yields a
nil store; otherwise the decoded store is returned, including one whose
Providers map is nil. -/
def loadStoreFromFile {κ : Type} : FileData κ → Option (CacheStore κ)
  | .missing => none
  | .malformed => none
  | .stored p => some ⟨p⟩

/-- loadStore (cache.go). The keyring tier is modelled as unavailable (as the
tests of the repository force with keyringDisabled), so loading falls back to
the file. -/
def loadStore {κ : Type} (fd : FileData κ) : Option (CacheStore κ) :=
  loadStoreFromFile fd

/-- saveStore / saveStoreToFile (cache.go) with the keyring tier unavailable:
the store is marshalled and written back to the file, which afterwards decodes
to the same store. -/
def saveStore {κ : Type} (store : CacheStore κ) : FileData κ :=
  .stored store.providers

/-- Cache.Get (cache.go): retrieves cached secrets for a fingerprint if they
exist and are not expired. time.Now().After(ExpiresAt) is the strict
comparison expiresAt < now; on an expired read the entry is deleted and the
store saved back. Returns the result together with the backing file state
after the call. -/
def Get {κ : Type} [DecidableEq κ] (fd : FileData κ) (now : Int) (cacheKey : κ) :
    Option (List (String × String)) × FileData κ :=
  match loadStore fd with
  | none => (none, fd)
  | some store =>
    match goLookup store.providers cacheKey with
    | none => (none, fd)
    | some cached =>
      if cached.expiresAt < now then
        (none, saveStore ⟨goDelete store.providers cacheKey⟩)
      else
        (some cached.secrets, fd)

/-- Cache.Set (cache.go): stores secrets under the fingerprint with CachedAt =
now and ExpiresAt = now + ttl, then saves the store. A nil store (load
failure) is replaced by a fresh one with an empty Providers map; a loaded
store whose Providers map is nil is used as is, and the assignment into it is
the nil-map panic of the Go runtime. -/
def Set {κ : Type} [DecidableEq κ] (ttl : Int) (fd : FileData κ) (now : Int)
    (cacheKey : κ) (secrets : List (String × String)) :
    Except GoPanic (FileData κ) :=
  let store : CacheStore κ :=
    match loadStore fd with
    | none => ⟨some []⟩
    | some s => s
  match goAssign store.providers cacheKey ⟨secrets, now + ttl, now⟩ with
  | .error e => .error e
  | .ok m => .ok (saveStore ⟨some m⟩)

/-- Cache.Stats (cache.go): the (total, valid, expired) counters accumulated
over the stored entries; an entry is counted valid when now.Before(ExpiresAt),
i.e. now < expiresAt, and expired otherwise. A nil store or a nil Providers
map yields (0, 0, 0). -/
def Stats {κ : Type} (fd : FileData κ) (now : Int) : Nat × Nat × Nat :=
  match loadStore fd with
  | none => (0, 0, 0)
  | some store =>
    match store.providers with
    | none => (0, 0, 0)
    | some m =>
      m.foldl
        (fun acc p =>
          if now < p.2.expiresAt then (acc.1 + 1, acc.2.1 + 1, acc.2.2)
          else (acc.1 + 1, acc.2.1, acc.2.2 + 1))
        (0, 0, 0)

end Cache

namespace Provider

/-! ### Provider Fetch key mapping

The Doppler plugin (internal/provider/doppler/doppler.go, cited through
internal/mcp/transport.go) and the Infisical plugin
(internal/provider/infisical/infisical.go) end their Fetch with the same loop
over the discovered secret map: for each secret (k, v), if the keys map has an
entry for k it is emitted under the mapped name, with the sentinel == meaning
the source name is kept; if the keys map is empty every secret is emitted
under its source name; otherwise the secret is skipped. Secret values are
modelled as the already-stringified values the loop emits. -/

/-- The key-mapping loop shared verbatim by DopplerProvider.Fetch and
InfisicalProvider.Fetch, over the discovered secretData and the keys rename
map. -/
def mapSecretKeys : List (String × String) → List (String × String) →
    List (String × String)
  | [], _ => []
  | (k, v) :: rest, keys =>
    match mapGet keys k with
    | some mapped =>
      (if mapped = "==" then k else mapped, v) :: mapSecretKeys rest keys
    | none =>
      if keys.isEmpty then (k, v) :: mapSecretKeys rest keys
      else mapSecretKeys rest keys

end Provider

namespace CLI

/-! ### internal/cli/env.go -/

/-- The single-quote character. -/
def sq : Char := Char.ofNat 39

/-- The double-quote character. -/
def dq : Char := Char.ofNat 34

/-- The backslash character. -/
def bs : Char := Char.ofNat 92

/-- Character-level body of escapeShell: strings.ReplaceAll with a
single-character pattern replaces each single quote by the five characters
quote, double quote, quote, double quote, quote and keeps every other
character. -/
def escapeShellChars : List Char → List Char
  | [] => []
  | c :: rest =>
    (if c = sq then [sq, dq, sq, dq, sq] else [c]) ++ escapeShellChars rest

/-- escapeShell (env.go): replaces each embedded single quote by ending the
quoted string, emitting a double-quoted single quote, and restarting, then
wraps the whole value in single quotes. -/
def escapeShell (s : String) : String :=
  String.mk (sq :: escapeShellChars s.data ++ [sq])

/-- One line of the shell-format output of the env command (env.go): the
Printf of "export %s=%s" applied to the key and the escaped value (the
trailing newline of the Printf is left to the printer). -/
def exportLine (key value : String) : String :=
  "export " ++ key ++ "=" ++ escapeShell value

end CLI

namespace MCP

/-! ### internal/mcp/protocol.go -/

/-- RequestID (protocol.go): a JSON-RPC request id whose value can be a
string, a number, or null; the payload type ι abstracts over the non-null
values, and value = none models the null id. -/
structure RequestID (ι : Type) : Type where
  value : Option ι

/-- RequestID.IsNull (protocol.go): true when the underlying value is nil. -/
def RequestID.IsNull {ι : Type} (id : RequestID ι) : Bool :=
  id.value.isNone

/-- JSONRPCError (protocol.go); the data payload is abstracted by ρ. -/
structure JSONRPCError (ρ : Type) : Type where
  code : Int
  message : String
  data : Option ρ

/-- JSONRPCMessage (protocol.go): a generic JSON-RPC 2.0 message. The ID
field is a pointer in Go, so it is an Option of a RequestID here; Method is ""
when the JSON field is absent; Params, Result and Error are nil-able and
abstracted by ρ. -/
structure JSONRPCMessage (ι ρ : Type) : Type where
  jsonrpc : String
  id : Option (RequestID ι)
  method : String
  params : Option ρ
  result : Option ρ
  error : Option (JSONRPCError ρ)

/-- JSONRPCMessage.IsRequest (protocol.go): Method is non-empty, the ID
pointer is non-nil, and the id value is not null. -/
def JSONRPCMessage.IsRequest {ι ρ : Type} (m : JSONRPCMessage ι ρ) : Bool :=
  m.method != "" &&
    match m.id with
    | none => false
    | some rid => !rid.IsNull

/-- JSONRPCMessage.IsNotification (protocol.go): Method is non-empty and the
ID pointer is nil or its value is null. -/
def JSONRPCMessage.IsNotification {ι ρ : Type} (m : JSONRPCMessage ι ρ) : Bool :=
  m.method != "" &&
    match m.id with
    | none => true
    | some rid => rid.IsNull

/-- JSONRPCMessage.IsResponse (protocol.go): the message carries a result or
an error. -/
def JSONRPCMessage.IsResponse {ι ρ : Type} (m : JSONRPCMessage ι ρ) : Bool :=
  m.result.isSome || m.error.isSome

end MCP

namespace Secrets

/-! ### The collector cache discipline

The collector version under src (internal/secrets/collector.go) is a stale
snapshot without the cache or SSO logic: its own in-tree caller
internal/cli/mcp.go constructs it with secrets.WithForceAuth, an option that
snapshot does not define. The cache-aware Collect is therefore modelled from
the spec, over the faithful cache embedding above. -/

/-- A declared provider instance: id, kind, backend config and the keys
rename map. -/
structure ProviderDecl : Type where
  id : String
  kind : String
  config : List (String × String)
  keys : List (String × String)

/-- Modelled from the spec: the per-provider step of Collector.Collect, whose
cache-aware body is missing from src (internal/secrets/collector.go is a stale
snapshot). Per spec section 4.3: template-expand the config (expansion reads
the ambient environment and is passed in as the expand function); compute the
cache fingerprint; consult the cache. On a hit, skip the network entirely. On
a miss, call Fetch (its outcome is the fetchResult oracle) and on success
record the unmapped result in the cache under the fingerprint; a failed cache
write degrades silently to a best-effort write (spec section 7, kind 4).
Key-renaming happens after caching. The returned Bool records whether Fetch
was called. -/
def collectProvider
    (fetchResult : Except String (List (String × String)))
    (expand : List (String × String) → List (String × String))
    (fd : Cache.FileData Cache.Fingerprint) (now ttl : Int)
    (p : ProviderDecl) :
    Except String
      (List (String × String) × Cache.FileData Cache.Fingerprint × Bool) :=
  let cfg := expand p.config
  let fp := Cache.GenerateCacheKey p.id p.kind cfg
  match Cache.Get fd now fp with
  | (some cached, fd1) =>
    .ok (Provider.mapSecretKeys cached p.keys, fd1, false)
  | (none, fd1) =>
    match fetchResult with
    | .error e => .error e
    | .ok raw =>
      let fd2 :=
        match Cache.Set ttl fd1 now fp raw with
        | .ok f => f
        | .error _ => fd1
      .ok (Provider.mapSecretKeys raw p.keys, fd2, true)

end Secrets

/-! ## Theorems -/

section Theorems

open Cache Provider CLI MCP Secrets

/-- Accumulator form of the Stats fold of cache.go. -/
theorem stats_foldl {κ : Type} (now : Int) (m : List (κ × Cache.CachedSecrets)) :
    ∀ a b c : Nat,
      m.foldl
        (fun acc p =>
          if now < p.2.expiresAt then (acc.1 + 1, acc.2.1 + 1, acc.2.2)
          else (acc.1 + 1, acc.2.1, acc.2.2 + 1))
        (a, b, c)
      = (a + m.length,
         b + m.countP (fun p => decide (now < p.2.expiresAt)),
         c + m.countP (fun p => !decide (now < p.2.expiresAt))) := by
  induction m with
  | nil => intro a b c; simp
  | cons p rest ih =>
    intro a b c
    by_cases h : now < p.2.expiresAt
    · simp [List.foldl_cons, h, ih, List.countP_cons]
      omega
    · simp [List.foldl_cons, h, ih, List.countP_cons]
      omega

/-- Splitting a count over a Bool predicate and its complement. -/
theorem countP_split {α : Type} (l : List α) (p : α → Bool) :
    l.countP p + l.countP (fun a => !p a) = l.length := by
  induction l with
  | nil => simp
  | cons a rest ih =>
    by_cases h : p a = true <;> simp [List.countP_cons, h] <;> omega

/-- C10: for every cache store state and instant, Cache.Stats returns a triple
(total, valid, expired) that partitions the stored entries: total equals
valid plus expired, an entry counting as valid exactly when the instant is
strictly before its expires_at and as expired otherwise. -/
theorem stats_partition {κ : Type} (now : Int) :
    (∀ fd : Cache.FileData κ,
       (Cache.Stats fd now).1 = (Cache.Stats fd now).2.1 + (Cache.Stats fd now).2.2)
  ∧ (∀ m : List (κ × Cache.CachedSecrets),
       Cache.Stats (Cache.FileData.stored (some m)) now
         = (m.length,
            m.countP (fun p => decide (now < p.2.expiresAt)),
            m.countP (fun p => !decide (now < p.2.expiresAt)))) := by
  have hsome : ∀ m : List (κ × Cache.CachedSecrets),
      Cache.Stats (Cache.FileData.stored (some m)) now
        = (m.length,
           m.countP (fun p => decide (now < p.2.expiresAt)),
           m.countP (fun p => !decide (now < p.2.expiresAt))) := by
    intro m
    show m.foldl _ (0, 0, 0) = _
    rw [stats_foldl now m 0 0 0]
    simp
  constructor
  · intro fd
    match fd with
    | .missing => simp [Cache.Stats, Cache.loadStore, Cache.loadStoreFromFile]
    | .malformed => simp [Cache.Stats, Cache.loadStore, Cache.loadStoreFromFile]
    | .stored none => simp [Cache.Stats, Cache.loadStore, Cache.loadStoreFromFile]
    | .stored (some m) =>
      rw [hsome m]
      exact (countP_split m _).symm
  · exact hsome

/-- C9: a JSON-RPC message is classified as a request iff it has a non-empty
method and a non-null id, as a notification iff it has a non-empty method and
no id or a null id, and as a response iff it carries a result or an error. -/
theorem jsonrpc_classification {ι ρ : Type} (m : MCP.JSONRPCMessage ι ρ) :
    (m.IsRequest = true ↔
       m.method ≠ "" ∧ ∃ rid v, m.id = some rid ∧ rid.value = some v)
  ∧ (m.IsNotification = true ↔
       m.method ≠ "" ∧
         (m.id = none ∨ ∃ rid, m.id = some rid ∧ rid.value = none))
  ∧ (m.IsResponse = true ↔ m.result ≠ none ∨ m.error ≠ none) := by
  obtain ⟨j, mid, meth, mparams, mres, merr⟩ := m
  refine ⟨?_, ?_, ?_⟩
  · match mid with
    | none =>
      simp [MCP.JSONRPCMessage.IsRequest]
    | some rid =>
      match hv : rid.value with
      | none =>
        simp [MCP.JSONRPCMessage.IsRequest, MCP.RequestID.IsNull, hv]
      | some v =>
        simp [MCP.JSONRPCMessage.IsRequest, MCP.RequestID.IsNull, hv]
  · match mid with
    | none =>
      simp [MCP.JSONRPCMessage.IsNotification]
    | some rid =>
      match hv : rid.value with
      | none =>
        simp [MCP.JSONRPCMessage.IsNotification, MCP.RequestID.IsNull, hv]
      | some v =>
        simp [MCP.JSONRPCMessage.IsNotification, MCP.RequestID.IsNull, hv]
  · match mres, merr with
    | none, none => simp [MCP.JSONRPCMessage.IsResponse]
    | none, some e => simp [MCP.JSONRPCMessage.IsResponse]
    | some r, none => simp [MCP.JSONRPCMessage.IsResponse]
    | some r, some e => simp [MCP.JSONRPCMessage.IsResponse]

/-- C2: the backing file contents left-brace right-brace and a document with
a null providers field both decode to a store whose Providers map is nil;
Cache.Set then assigns into that nil map and panics, contradicting the
tolerant-load property the cache tests of the repository assert. Contents
that are not JSON do load as a nil store and the subsequent Set succeeds. -/
theorem set_panics_on_nil_providers_file :
    Cache.Set Cache.DefaultTTL
        (Cache.FileData.stored (none : GoMap String Cache.CachedSecrets)) 0
        "test-key" [("KEY", "value")]
      = .error GoPanic.nilMapAssign
  ∧ Cache.Set Cache.DefaultTTL (Cache.FileData.malformed : Cache.FileData String) 0
        "test-key" [("KEY", "value")]
      = .ok (Cache.FileData.stored
          (some [("test-key", ⟨[("KEY", "value")], 300000000000, 0⟩)])) := by
  constructor
  · rfl
  · rfl

/-- C5 counterexample: at the instant exactly equal to the entry's
expires_at, Cache.Get still returns the stored secrets although the instant
is not strictly before expires_at, so the hit condition is not
now < expires_at. -/
theorem get_hits_at_exact_expiry :
    Cache.Get
        (Cache.FileData.stored
          (some [("f", (⟨[("A", "1")], 100, 0⟩ : Cache.CachedSecrets))]))
        100 "f"
      = (some [("A", "1")],
         Cache.FileData.stored
           (some [("f", (⟨[("A", "1")], 100, 0⟩ : Cache.CachedSecrets))]))
  ∧ ¬ ((100 : Int) < 100) := by
  constructor
  · rfl
  · decide

/-- C5 as amended: for a stored entry, Cache.Get returns the stored secrets
iff now is at or before expires_at (the miss condition of the source is the
strict expires_at < now); on an expired read the entry is removed and the
store persisted back; Cache.Set stores the entry with expires_at = now + ttl,
and the default ttl is 5 minutes. -/
theorem cache_expiry_semantics {κ : Type} [DecidableEq κ]
    (m : List (κ × Cache.CachedSecrets)) (key : κ) (e : Cache.CachedSecrets)
    (now ttl : Int) (secrets : List (String × String))
    (hmem : mapGet m key = some e) :
    (now ≤ e.expiresAt →
       Cache.Get (Cache.FileData.stored (some m)) now key
         = (some e.secrets, Cache.FileData.stored (some m)))
  ∧ (e.expiresAt < now →
       Cache.Get (Cache.FileData.stored (some m)) now key
         = (none, Cache.FileData.stored (some (mapDel m key))))
  ∧ Cache.Set ttl (Cache.FileData.stored (some m)) now key secrets
      = .ok (Cache.FileData.stored
          (some (mapSet m key ⟨secrets, now + ttl, now⟩)))
  ∧ Cache.DefaultTTL = 5 * 60 * 1000000000 := by
  refine ⟨?_, ?_, ?_, rfl⟩
  · intro h
    simp [Cache.Get, Cache.loadStore, Cache.loadStoreFromFile, goLookup, hmem,
      Cache.saveStore, Int.not_lt.mpr h]
  · intro h
    simp [Cache.Get, Cache.loadStore, Cache.loadStoreFromFile, goLookup, hmem,
      Cache.saveStore, goDelete, h]
  · simp [Cache.Set, Cache.loadStore, Cache.loadStoreFromFile, goAssign,
      Cache.saveStore]

/-- Concrete instance of cache_expiry_semantics: a fresh read at instant 50
of an entry expiring at 100 hits. -/
theorem cache_expiry_semantics_witness :
    Cache.Get
        (Cache.FileData.stored
          (some [("f", (⟨[("A", "1")], 100, 0⟩ : Cache.CachedSecrets))]))
        50 "f"
      = (some [("A", "1")],
         Cache.FileData.stored
           (some [("f", (⟨[("A", "1")], 100, 0⟩ : Cache.CachedSecrets))])) :=
  (cache_expiry_semantics [("f", ⟨[("A", "1")], 100, 0⟩)] "f"
    ⟨[("A", "1")], 100, 0⟩ 50 0 [] rfl).1 (by decide)

/-- Replacing the binding of a reserved key leaves the non-reserved entries
of a config untouched. -/
theorem filter_nonreserved_map_replace
    (C : List (String × String)) (k v : String)
    (h : Cache.reservedKey k = true) :
    (C.map (fun p => if p.1 = k then (k, v) else p)).filter
        (fun p => !Cache.reservedKey p.1)
      = C.filter (fun p => !Cache.reservedKey p.1) := by
  induction C with
  | nil => simp
  | cons p rest ih =>
    by_cases hp : p.1 = k
    · have hres : Cache.reservedKey p.1 = true := by rw [hp]; exact h
      simp [List.filter_cons, hp, h, hres, ih]
    · simp [List.filter_cons, hp, ih]

/-- Overwriting a reserved key leaves the non-reserved entries of a config
untouched. -/
theorem filter_nonreserved_mapSet_reserved
    (C : List (String × String)) (k v : String)
    (h : Cache.reservedKey k = true) :
    (mapSet C k v).filter (fun p => !Cache.reservedKey p.1)
      = C.filter (fun p => !Cache.reservedKey p.1) := by
  unfold mapSet
  by_cases hany : C.any (fun p => decide (p.1 = k)) = true
  · simp only [hany, if_true]
    exact filter_nonreserved_map_replace C k v h
  · simp only [hany, if_false, List.filter_append, List.filter_cons, h]
    simp [h]

/-- Deleting a reserved key leaves the non-reserved entries of a config
untouched. -/
theorem filter_nonreserved_mapDel_reserved
    (C : List (String × String)) (k : String)
    (h : Cache.reservedKey k = true) :
    (mapDel C k).filter (fun p => !Cache.reservedKey p.1)
      = C.filter (fun p => !Cache.reservedKey p.1) := by
  induction C with
  | nil => simp [mapDel]
  | cons p rest ih =>
    by_cases hp : p.1 = k
    · simp [mapDel, List.filter_cons, hp, h] at ih ⊢
      exact ih
    · simp [mapDel, List.filter_cons, hp] at ih ⊢
      simp [ih]

/-- C3: the cache fingerprint is unchanged by adding, changing or removing
the reserved keys _sso_access_token and _sso_id_token in the config: two runs
whose configs agree outside those two keys produce identical fingerprints. -/
theorem fingerprint_ignores_sso_tokens (pid kind : String)
    (C : List (String × String)) (a b : String) :
    Cache.GenerateCacheKey pid kind
        (mapSet (mapSet C "_sso_access_token" a) "_sso_id_token" b)
      = Cache.GenerateCacheKey pid kind C
  ∧ Cache.GenerateCacheKey pid kind
        (mapDel (mapDel C "_sso_access_token") "_sso_id_token")
      = Cache.GenerateCacheKey pid kind C
  ∧ ∀ C2 : List (String × String),
      C2.filter (fun p => !Cache.reservedKey p.1)
        = C.filter (fun p => !Cache.reservedKey p.1) →
      Cache.GenerateCacheKey pid kind C2 = Cache.GenerateCacheKey pid kind C := by
  have key : ∀ C2 : List (String × String),
      C2.filter (fun p => !Cache.reservedKey p.1)
        = C.filter (fun p => !Cache.reservedKey p.1) →
      Cache.GenerateCacheKey pid kind C2 = Cache.GenerateCacheKey pid kind C := by
    intro C2 hC2
    simp [Cache.GenerateCacheKey, Cache.sortedConfigString, hC2]
  refine ⟨?_, ?_, key⟩
  · apply key
    rw [filter_nonreserved_mapSet_reserved _ _ _ (by decide)]
    rw [filter_nonreserved_mapSet_reserved _ _ _ (by decide)]
  · apply key
    rw [filter_nonreserved_mapDel_reserved _ _ (by decide)]
    rw [filter_nonreserved_mapDel_reserved _ _ (by decide)]

/-- Concrete instance of fingerprint_ignores_sso_tokens: injecting the SSO
token keys into a vault config does not change its fingerprint. -/
theorem fingerprint_ignores_sso_tokens_witness :
    Cache.GenerateCacheKey "vault" "vault"
        [("address", "https://vault.example.com"),
         ("_sso_access_token", "token123"), ("_sso_id_token", "idtoken456")]
      = Cache.GenerateCacheKey "vault" "vault"
          [("address", "https://vault.example.com")] :=
  (fingerprint_ignores_sso_tokens "vault" "vault"
      [("address", "https://vault.example.com")] "" "").2.2
    [("address", "https://vault.example.com"),
     ("_sso_access_token", "token123"), ("_sso_id_token", "idtoken456")]
    (by decide)

/-- Membership is preserved by the insertion step of the key sort. -/
theorem mem_sortedInsert (a p : String × String)
    (l : List (String × String)) :
    a ∈ Cache.sortedInsert p l ↔ a = p ∨ a ∈ l := by
  induction l with
  | nil => simp [Cache.sortedInsert]
  | cons q rest ih =>
    by_cases h : q.1 < p.1
    · simp only [Cache.sortedInsert, h, if_true, List.mem_cons, ih]
      tauto
    · simp only [Cache.sortedInsert, h, if_false, List.mem_cons]

/-- Membership is preserved by the key sort of sortedConfigString. -/
theorem mem_sortByKey (a : String × String) (l : List (String × String)) :
    a ∈ Cache.sortByKey l ↔ a ∈ l := by
  induction l with
  | nil => simp [Cache.sortByKey]
  | cons p rest ih =>
    simp [Cache.sortByKey, mem_sortedInsert, ih]

/-- In a config whose keys are distinct, a key determines its value. -/
theorem key_unique {α : Type} (C : List (String × α))
    (hnd : (C.map Prod.fst).Nodup) {k : String} {a b : α}
    (ha : (k, a) ∈ C) (hb : (k, b) ∈ C) : a = b := by
  induction C with
  | nil => cases ha
  | cons p rest ih =>
    rw [List.map_cons, List.nodup_cons] at hnd
    rcases List.mem_cons.mp ha with ha1 | ha1 <;>
      rcases List.mem_cons.mp hb with hb1 | hb1
    · exact congrArg Prod.snd (ha1.trans hb1.symm)
    · subst ha1
      exact absurd (List.mem_map_of_mem Prod.fst hb1) hnd.1
    · subst hb1
      exact absurd (List.mem_map_of_mem Prod.fst ha1) hnd.1
    · exact ih hnd.2 ha1 hb1

/-- After overwriting key k, the binding (k, new value) is present. -/
theorem mem_mapSet_self {α : Type} (C : List (String × α)) (k : String)
    (v v' : α) (hmem : (k, v) ∈ C) : (k, v') ∈ mapSet C k v' := by
  unfold mapSet
  have hany : C.any (fun p => decide (p.1 = k)) = true := by
    rw [List.any_eq_true]
    exact ⟨(k, v), hmem, by simp⟩
  simp only [hany, if_true]
  have := List.mem_map_of_mem (fun p : String × α => if p.1 = k then (k, v') else p) hmem
  simpa using this

/-- C4: for every non-reserved key present in the config, changing its value
changes the fingerprint. -/
theorem fingerprint_sensitive_to_config_change (pid kind : String)
    (C : List (String × String)) (k v v' : String)
    (hnd : (C.map Prod.fst).Nodup) (hres : Cache.reservedKey k = false)
    (hmem : (k, v) ∈ C) (hne : v' ≠ v) :
    Cache.GenerateCacheKey pid kind (mapSet C k v')
      ≠ Cache.GenerateCacheKey pid kind C := by
  intro h
  have hcfg : Cache.sortedConfigString (mapSet C k v')
      = Cache.sortedConfigString C := congrArg Cache.Fingerprint.config h
  have h1 : (k, v') ∈ Cache.sortedConfigString (mapSet C k v') := by
    rw [Cache.sortedConfigString, mem_sortByKey, List.mem_filter]
    exact ⟨mem_mapSet_self C k v v' hmem, by simp [hres]⟩
  rw [hcfg, Cache.sortedConfigString, mem_sortByKey, List.mem_filter] at h1
  exact hne (key_unique C hnd h1.1 hmem)

/-- Concrete instance of fingerprint_sensitive_to_config_change: changing the
region of an AWS provider config changes the fingerprint. -/
theorem fingerprint_sensitive_to_config_change_witness :
    Cache.GenerateCacheKey "aws" "aws_secretsmanager"
        (mapSet [("region", "us-east-1")] "region" "us-west-2")
      ≠ Cache.GenerateCacheKey "aws" "aws_secretsmanager"
          [("region", "us-east-1")] :=
  fingerprint_sensitive_to_config_change "aws" "aws_secretsmanager"
    [("region", "us-east-1")] "region" "us-east-1" "us-west-2"
    (by decide) (by decide) (by decide) (by decide)

/-- With a non-empty keys map, the Fetch key-mapping loop is a filterMap over
the discovered secrets. -/
theorem mapSecretKeys_nonempty_filterMap (d : List (String × String))
    (k0 : String × String) (ks : List (String × String)) :
    Provider.mapSecretKeys d (k0 :: ks)
      = d.filterMap (fun p =>
          match mapGet (k0 :: ks) p.1 with
          | none => none
          | some m => some (if m = "==" then p.1 else m, p.2)) := by
  induction d with
  | nil => simp [Provider.mapSecretKeys]
  | cons p rest ih =>
    obtain ⟨k1, v1⟩ := p
    cases hmg : mapGet (k0 :: ks) k1 with
    | none =>
      simp [Provider.mapSecretKeys, hmg, List.filterMap_cons, ih]
    | some m =>
      simp [Provider.mapSecretKeys, hmg, List.filterMap_cons, ih]

/-- C6: with an empty keys map a provider Fetch returns every discovered
secret under its source name; with a non-empty keys map it returns exactly
the discovered source keys listed in keys, each under its mapped target name,
the sentinel == meaning the source name is kept, and source keys not listed
are omitted. -/
theorem fetch_key_mapping (d : List (String × String)) :
    Provider.mapSecretKeys d [] = d
  ∧ ∀ (k0 : String × String) (ks : List (String × String)) (t v : String),
      ((t, v) ∈ Provider.mapSecretKeys d (k0 :: ks) ↔
        ∃ k, (k, v) ∈ d ∧
          ((mapGet (k0 :: ks) k = some "==" ∧ t = k) ∨
           (mapGet (k0 :: ks) k = some t ∧ t ≠ "=="))) := by
  constructor
  · induction d with
    | nil => simp [Provider.mapSecretKeys]
    | cons p rest ih =>
      obtain ⟨k1, v1⟩ := p
      simp [Provider.mapSecretKeys, mapGet, ih]
  · intro k0 ks t v
    rw [mapSecretKeys_nonempty_filterMap, List.mem_filterMap]
    constructor
    · rintro ⟨⟨k, v2⟩, hp, hf⟩
      cases hmg : mapGet (k0 :: ks) k with
      | none => rw [hmg] at hf; cases hf
      | some m =>
        rw [hmg] at hf
        simp only [Option.some.injEq, Prod.mk.injEq] at hf
        obtain ⟨ht, hv⟩ := hf
        subst hv
        refine ⟨k, hp, ?_⟩
        by_cases hm : m = "=="
        · left
          subst hm
          exact ⟨hmg, by simp at ht; exact ht.symm⟩
        · right
          rw [if_neg hm] at ht
          subst ht
          exact ⟨hmg, hm⟩
    · rintro ⟨k, hk, ⟨hmg, ht⟩ | ⟨hmg, hne⟩⟩
      · subst ht
        exact ⟨(t, v), hk, by simp [hmg]⟩
      · exact ⟨(k, v), hk, by simp [hmg, if_neg hne]⟩

/-- C7 counterexample: with the discovered secrets A=1, B=2, mapping A to the
sentinel == inside a non-empty keys map does not yield the same Fetch output
as leaving A out of the keys map entirely: the first output contains A, the
second omits it. -/
theorem rename_sentinel_vs_unlisted_differ :
    Provider.mapSecretKeys [("A", "1"), ("B", "2")] [("A", "=="), ("B", "BB")]
      ≠ Provider.mapSecretKeys [("A", "1"), ("B", "2")] [("B", "BB")] := by
  decide

/-- The Fetch key-mapping loop distributes over concatenation of the
discovered secrets. -/
theorem mapSecretKeys_append (d1 d2 keys : List (String × String)) :
    Provider.mapSecretKeys (d1 ++ d2) keys
      = Provider.mapSecretKeys d1 keys ++ Provider.mapSecretKeys d2 keys := by
  induction d1 with
  | nil => simp [Provider.mapSecretKeys]
  | cons p rest ih =>
    obtain ⟨k1, v1⟩ := p
    cases hmg : mapGet keys k1 with
    | none =>
      by_cases hks : keys.isEmpty <;>
        simp [Provider.mapSecretKeys, hmg, hks, ih]
    | some m =>
      simp [Provider.mapSecretKeys, hmg, ih]

/-- C7 as amended: per discovered secret, mapping its source key to the
sentinel == inside a non-empty keys map returns it under its source name,
which is the same per-key output as an empty keys map, whereas a source key
left out of a non-empty keys map is omitted from the output; the per-key view
determines the whole output because the mapping loop distributes over
concatenation. -/
theorem rename_sentinel_keeps_source_name (k v : String)
    (k0 : String × String) (ks : List (String × String)) :
    (mapGet (k0 :: ks) k = some "==" →
       Provider.mapSecretKeys [(k, v)] (k0 :: ks)
         = Provider.mapSecretKeys [(k, v)] [])
  ∧ (mapGet (k0 :: ks) k = none →
       Provider.mapSecretKeys [(k, v)] (k0 :: ks) = [])
  ∧ ∀ d1 d2 : List (String × String),
      Provider.mapSecretKeys (d1 ++ d2) (k0 :: ks)
        = Provider.mapSecretKeys d1 (k0 :: ks)
          ++ Provider.mapSecretKeys d2 (k0 :: ks) := by
  refine ⟨?_, ?_, fun d1 d2 => mapSecretKeys_append d1 d2 (k0 :: ks)⟩
  · intro hmg
    simp only [Provider.mapSecretKeys, hmg]
    simp [Provider.mapSecretKeys, mapGet]
  · intro hmg
    simp [Provider.mapSecretKeys, hmg]

/-- Concrete instance of rename_sentinel_keeps_source_name: A mapped to ==
alongside another mapping keeps A under its own name. -/
theorem rename_sentinel_keeps_source_name_witness :
    Provider.mapSecretKeys [("A", "1")] [("A", "=="), ("B", "BB")]
      = Provider.mapSecretKeys [("A", "1")] [] :=
  (rename_sentinel_keeps_source_name "A" "1" ("A", "==") [("B", "BB")]).1
    (by decide)

/-- The character replacement of escapeShell as a bind over the value. -/
theorem escapeShellChars_eq_flatMap (l : List Char) :
    CLI.escapeShellChars l
      = l.flatMap (fun c =>
          if c = CLI.sq then [CLI.sq, CLI.dq, CLI.sq, CLI.dq, CLI.sq]
          else [c]) := by
  induction l with
  | nil => simp [CLI.escapeShellChars]
  | cons c rest ih => simp [CLI.escapeShellChars, ih]

/-- C8 counterexample: for the value a quote b, the emitted export line
contains no backslash at all, so the embedded single quote does not appear as
the four-character idiom quote backslash quote quote claimed by the spec; the
source escapes with the five-character quote double-quote quote double-quote
quote idiom instead. -/
theorem escape_shell_not_backslash_idiom :
    CLI.escapeShell (String.mk ['a', CLI.sq, 'b'])
      = String.mk [CLI.sq, 'a', CLI.sq, CLI.dq, CLI.sq, CLI.dq, CLI.sq, 'b', CLI.sq]
  ∧ CLI.bs ∉ (CLI.exportLine "K" (String.mk ['a', CLI.sq, 'b'])).data
  ∧ CLI.sq ∈ (String.mk ['a', CLI.sq, 'b']).data := by
  refine ⟨rfl, by decide, by decide⟩

/-- C8 as amended: the shell-format value is wrapped in single quotes and
every embedded single quote appears in the emitted export line as the
five-character sequence quote, double quote, quote, double quote, quote (the
close-reopen idiom of env.go written with a double-quoted single quote), and
the export line is the Printf of export key equals escaped value. -/
theorem escape_shell_quote_idiom (k : String) (l : List Char) :
    (CLI.escapeShell (String.mk l)).data
      = CLI.sq
          :: (l.flatMap (fun c =>
                if c = CLI.sq then [CLI.sq, CLI.dq, CLI.sq, CLI.dq, CLI.sq]
                else [c]))
          ++ [CLI.sq]
  ∧ (CLI.exportLine k (String.mk l)).data
      = "export ".data ++ k.data ++ ['=']
          ++ (CLI.escapeShell (String.mk l)).data := by
  constructor
  · simp [CLI.escapeShell, escapeShellChars_eq_flatMap]
  · simp [CLI.exportLine, String.data_append]

/-- C1 (spec-modelled): the collector computes the fingerprint of the
expanded config and consults the cache before fetching; on a hit it returns
the cached secrets (renamed) without calling Fetch, leaving the cache state
as the read left it, and on a miss it calls Fetch and on success records the
unmapped result in the cache under that fingerprint, returning the renamed
result. -/
theorem collector_cache_discipline
    (fetchResult : Except String (List (String × String)))
    (expand : List (String × String) → List (String × String))
    (fd : Cache.FileData Cache.Fingerprint) (now ttl : Int)
    (p : Secrets.ProviderDecl) :
    (∀ s fd1,
       Cache.Get fd now (Cache.GenerateCacheKey p.id p.kind (expand p.config))
           = (some s, fd1) →
       Secrets.collectProvider fetchResult expand fd now ttl p
         = .ok (Provider.mapSecretKeys s p.keys, fd1, false))
  ∧ (∀ fd1 raw,
       Cache.Get fd now (Cache.GenerateCacheKey p.id p.kind (expand p.config))
           = (none, fd1) →
       fetchResult = .ok raw →
       ∀ fd2,
         Cache.Set ttl fd1 now
             (Cache.GenerateCacheKey p.id p.kind (expand p.config)) raw
           = .ok fd2 →
         Secrets.collectProvider fetchResult expand fd now ttl p
           = .ok (Provider.mapSecretKeys raw p.keys, fd2, true)) := by
  constructor
  · intro s fd1 h
    simp only [Secrets.collectProvider]
    rw [h]
  · intro fd1 raw hget hfetch fd2 hset
    simp only [Secrets.collectProvider]
    rw [hget, hfetch]
    simp [hset]

/-- Concrete instance of collector_cache_discipline: a warm cache entry for a
dotenv provider is served without a fetch. -/
theorem collector_cache_discipline_witness :
    Secrets.collectProvider (Except.ok []) (fun c => c)
        (Cache.FileData.stored
          (some [((⟨"d", "dotenv", []⟩ : Cache.Fingerprint),
                  (⟨[("A", "1")], 100, 0⟩ : Cache.CachedSecrets))]))
        50 0 ⟨"d", "dotenv", [], []⟩
      = .ok ([("A", "1")],
             Cache.FileData.stored
               (some [((⟨"d", "dotenv", []⟩ : Cache.Fingerprint),
                       (⟨[("A", "1")], 100, 0⟩ : Cache.CachedSecrets))]),
             false) :=
  (collector_cache_discipline (Except.ok []) (fun c => c)
      (Cache.FileData.stored
        (some [((⟨"d", "dotenv", []⟩ : Cache.Fingerprint),
                (⟨[("A", "1")], 100, 0⟩ : Cache.CachedSecrets))]))
      50 0 ⟨"d", "dotenv", [], []⟩).1
    [("A", "1")] _ (by decide)

end Theorems

end SStart
